import Mathlib

/-!
# EFIShares portfolio tracker — verification of the reference model

A shallow embedding of the CRUD/valuation logic of `src/main.py`
(EFI portfolio tracker).  Python floats are modelled as exact
rationals (`ℚ`), the Supabase tables as association lists inside a
`Store` record, and the two outbound price fetches as explicit
parameters (the result of the external call is an argument of the
function that consumes it).  Exceptions raised by the Python code are
modelled with `Except`; an uncaught exception leaves the store as it
was at the raise site.
-/

set_option autoImplicit false

namespace EFIShares

/-! ## Association-list primitives (model of keyed table rows) -/

/-- First value stored under key `k`, as Supabase `select ... .eq(key, k)`
returns the row with that primary key. -/
def lookupKey {κ α : Type} [DecidableEq κ] (l : List (κ × α)) (k : κ) : Option α :=
  match l with
  | [] => none
  | r :: rest => if r.1 = k then some r.2 else lookupKey rest k

/-- Model of `upsert(..., on_conflict=key)`: replace the row with key `k`
if present, otherwise append a new row. -/
def upsertAssoc {κ α : Type} [DecidableEq κ] (l : List (κ × α)) (k : κ) (v : α) :
    List (κ × α) :=
  match l with
  | [] => [(k, v)]
  | r :: rest => if r.1 = k then (k, v) :: rest else r :: upsertAssoc rest k v

/-- Model of `delete().eq(key, k)`: remove every row with key `k`. -/
def eraseKey {κ α : Type} [DecidableEq κ] (l : List (κ × α)) (k : κ) : List (κ × α) :=
  match l with
  | [] => []
  | r :: rest => if r.1 = k then eraseKey rest k else r :: eraseKey rest k

/-! ## Option chain snapshots (`get_options_chain` JSON document)

The chain provider answers with
`{ "options": { "<YYYY-MM-DD>": { "c": { "<strike 2dp>": {"b": bid, "a": ask} }, "p": {...} } } }`.
A `"b"` or `"a"` field may be absent (`dict.get` with default `0`),
hence `Option ℚ` fields.  A side (`"c"`/`"p"`) that is absent behaves
exactly like an empty dict in `fetch_option_price`, so a side is just a
(possibly empty) list of strike entries. -/

structure OptionQuote where
  b : Option ℚ
  a : Option ℚ
deriving DecidableEq, Repr

structure ExpirationEntry where
  c : List (String × OptionQuote)
  p : List (String × OptionQuote)
deriving DecidableEq, Repr

/-- The value of the `"options"` key: expiration date ↦ per-side strike maps. -/
abbrev OptionsChain := List (String × ExpirationEntry)

/-- Errors raised by `fetch_option_price` (all `ValueError` in Python;
distinguished here by their message as the spec's error taxonomy does:
missing key ↦ `notFound`, non-positive ask ↦ `invalidQuote`). -/
inductive FetchError where
  | notFound
  | invalidQuote
deriving DecidableEq, Repr

/-- Rational floor, `⌊q⌋`; `Int` division in Lean is Euclidean, so for the
positive denominator of a normalised `Rat` this is the floor. -/
def ratFloor (q : ℚ) : Int := q.num / (q.den : Int)

/-- The `strike` in whole cents, rounding to nearest as the `"%.2f"` format does
(exact for the cent-valued strikes the chain uses). -/
def centsOf (strike : ℚ) : Int := ratFloor (strike * 100 + 1 / 2)

def twoDigits (n : Nat) : String :=
  (if n < 10 then "0" else "") ++ toString n

/-- Model of the strike key `f"{strike:.2f}"` used to index a side map. -/
def strikeKey (strike : ℚ) : String :=
  let cents := centsOf strike
  (if cents < 0 then "-" else "") ++
    toString (cents.natAbs / 100) ++ "." ++ twoDigits (cents.natAbs % 100)

/-- Model of Python's `str.upper()` (character-wise uppercasing; the
call/put markers it is applied to are plain ASCII). -/
def upperStr (s : String) : String := String.mk (s.data.map Char.toUpper)

/-- Embeds `fetch_option_price(symbol, expiration, strike, call_put)` from
`src/main.py` lines 52–77.  `chain?` is the JSON answer of
`get_options_chain(symbol)` (`none` when the response was falsy or had no
`"options"` key). -/
def fetch_option_price (chain? : Option OptionsChain) (expiration : String)
    (strike : ℚ) (call_put : String) : Except FetchError ℚ :=
  match chain? with
  | none => Except.error FetchError.notFound
  | some all_opts =>
    match lookupKey all_opts expiration with
    | none => Except.error FetchError.notFound
    | some entry =>
      let cp_dict := if upperStr call_put = "CALL" then entry.c else entry.p
      if cp_dict.isEmpty then Except.error FetchError.notFound
      else
        match lookupKey cp_dict (strikeKey strike) with
        | none => Except.error FetchError.notFound
        | some option_data =>
          let bid := option_data.b.getD 0
          let ask := option_data.a.getD 0
          if ask ≤ 0 then Except.error FetchError.invalidQuote
          else Except.ok ((bid + ask) / 2)

/-! ## Share price fetch -/

/-- Embeds `fetch_share_price` (lines 82–89): `history` is the outcome of the
`yfinance` call — `Except.error` when it raised, otherwise the list of
close prices of the returned frame.  The last close is returned when the
frame is non-empty; every failure path yields the sentinel `0.0`. -/
def fetch_share_price (history : Except Unit (List ℚ)) : ℚ :=
  match history with
  | Except.error _ => 0
  | Except.ok closes =>
    match closes.getLast? with
    | some c => c
    | none => 0

/-! ## Persistence store (the five Supabase tables) -/

/-- Row of `portfolio_shares` (the `ticker` key is kept outside, as the
association-list key). -/
structure SharePosition where
  shares_held : ℚ
  avg_cost : ℚ
  current_price : ℚ
  unrealized_pl : ℚ
deriving DecidableEq, Repr

/-- Row of `portfolio_options` (the surrogate `id` key is kept outside). -/
structure OptionPosition where
  symbol : String
  call_put : String
  expiration : String
  strike : ℚ
  contracts_held : ℚ
  avg_cost : ℚ
  current_price : ℚ
  unrealized_pl : ℚ
deriving DecidableEq, Repr

/-- One `portfolio_activity` row, modelled by the data content of the
formatted message built in `log_shares_activity` / `log_options_activity`
(the HTML wrapping and the wall-clock timestamp carry no further state). -/
inductive LogEntry where
  | sharesTrade (ticker : String) (shares_added price : ℚ)
  | optionsTrade (symbol call_put expiration : String)
      (strike contracts_added price : ℚ)
deriving DecidableEq, Repr

/-- The persistence store: `settings` (singleton `original_capital` row,
`none` when the table is empty), the two position tables, the `performance`
table keyed by date string, and the append-only activity log.  `next_id`
models the auto-increment id the store assigns on option `insert`. -/
structure Store where
  settings : Option ℚ
  shares : List (String × SharePosition)
  options : List (Nat × OptionPosition)
  performance : List (String × ℚ)
  activity : List LogEntry
  next_id : Nat
deriving DecidableEq, Repr

/-- Embeds `upsert_share` (lines 109–117): recomputes `unrealized_pl` from the
written fields and upserts on the `ticker` key. -/
def upsert_share (store : Store) (ticker : String)
    (shares_held avg_cost current_price : ℚ) : Store :=
  let unreal_pl := (current_price - avg_cost) * shares_held
  { store with
      shares := upsertAssoc store.shares ticker
        { shares_held := shares_held, avg_cost := avg_cost,
          current_price := current_price, unrealized_pl := unreal_pl } }

/-- Embeds `delete_share` (lines 119–120). -/
def delete_share (store : Store) (ticker : String) : Store :=
  { store with shares := eraseKey store.shares ticker }

/-- Embeds `upsert_option` (lines 128–144): with `opt_id = none` a new row is
inserted under a fresh id, otherwise the row with that id is updated. -/
def upsert_option (store : Store) (opt_id : Option Nat) (symbol call_put expiration : String)
    (strike contracts_held avg_cost current_price : ℚ) : Store :=
  let unreal_pl := (current_price - avg_cost) * (contracts_held * 100)
  let pos : OptionPosition :=
    { symbol := symbol, call_put := call_put, expiration := expiration,
      strike := strike, contracts_held := contracts_held, avg_cost := avg_cost,
      current_price := current_price, unrealized_pl := unreal_pl }
  match opt_id with
  | none =>
      { store with
          options := store.options ++ [(store.next_id, pos)],
          next_id := store.next_id + 1 }
  | some oid =>
      { store with
          options := store.options.map (fun r => if r.1 = oid then (oid, pos) else r) }

/-- Embeds `delete_option` (lines 146–147). -/
def delete_option (store : Store) (row_id : Nat) : Store :=
  { store with options := eraseKey store.options row_id }

/-- Embeds `upsert_performance` (lines 155–156): upsert on the `date` key. -/
def upsert_performance (store : Store) (date_str : String) (total_value : ℚ) : Store :=
  { store with performance := upsertAssoc store.performance date_str total_value }

/-- Embeds `log_activity` (lines 169–170): append-only insert. -/
def log_activity (store : Store) (entry : LogEntry) : Store :=
  { store with activity := store.activity ++ [entry] }

/-! ## Valuation -/

/-- The weighted-average-cost recomputation of a position update
(lines 530 and 658–660 of `show_portfolio_data`, named as in the spec). -/
def weighted_average_cost (old_qty old_avg delta_qty delta_price : ℚ) : ℚ :=
  (old_qty * old_avg + delta_qty * delta_price) / (old_qty + delta_qty)

/-- Portfolio totals of `record_daily_performance` (lines 236–250),
named as in the spec. -/
structure PortfolioTotals where
  equity_value : ℚ
  option_value : ℚ
  buying_power : ℚ
  total_value : ℚ
deriving DecidableEq, Repr

def portfolio_totals (shares : List (String × SharePosition))
    (opts : List (Nat × OptionPosition)) (original_capital : ℚ) : PortfolioTotals :=
  let total_shares_val := (shares.map (fun r => r.2.shares_held * r.2.current_price)).sum
  let total_opts_val := (opts.map (fun r => r.2.contracts_held * 100 * r.2.current_price)).sum
  let spent_shares_val := (shares.map (fun r => r.2.shares_held * r.2.avg_cost)).sum
  let spent_opts_val := (opts.map (fun r => r.2.contracts_held * 100 * r.2.avg_cost)).sum
  let buying_power := original_capital - spent_shares_val - spent_opts_val
  { equity_value := total_shares_val, option_value := total_opts_val,
    buying_power := buying_power,
    total_value := total_shares_val + total_opts_val + buying_power }

/-! ## Position-update submission (`show_portfolio_data` button handlers) -/

/-- How a submission run ended (mirrors the Python control flow:
`st.error` + `st.stop` ↦ `rejected`, the zero-total delete branch ↦
`closed`, the zero-total branch with no existing row ↦ `noop`, an
exception escaping `fetch_option_price` ↦ `fetchFailed`). -/
inductive SubmitOutcome where
  | rejected
  | closed
  | noop
  | updated
  | fetchFailed (e : FetchError)
deriving DecidableEq, Repr

/-- The `old_shares` value as the shares form derives it (lines 499–506): the stored
row's `shares_held`, or `0.0` for a new ticker. -/
def oldSharesOf (store : Store) (ticker : String) : ℚ :=
  match lookupKey store.shares ticker with
  | some p => p.shares_held
  | none => 0

/-- The `old_avg` value of the shares form (lines 499–506). -/
def oldShareAvgOf (store : Store) (ticker : String) : ℚ :=
  match lookupKey store.shares ticker with
  | some p => p.avg_cost
  | none => 0

/-- The `Submit (Shares)` handler (lines 515–538).  `purchase_price` is the
filled-price input and `fetched_px` the result of the `fetch_share_price`
call made before `upsert_share`. -/
def submit_shares (store : Store) (ticker : String)
    (shares_to_add purchase_price fetched_px : ℚ) : Store × SubmitOutcome :=
  let old_shares := oldSharesOf store ticker
  let old_avg := oldShareAvgOf store ticker
  let total_shares := old_shares + shares_to_add
  if total_shares < 0 then (store, SubmitOutcome.rejected)
  else if total_shares = 0 then
    let s1 := delete_share store ticker
    let s2 := if shares_to_add ≠ 0 then
        log_activity s1 (LogEntry.sharesTrade ticker shares_to_add purchase_price)
      else s1
    (s2, SubmitOutcome.closed)
  else
    let new_avg := if old_shares + shares_to_add ≠ 0 then
        weighted_average_cost old_shares old_avg shares_to_add purchase_price
      else 0
    let s1 := upsert_share store ticker total_shares new_avg fetched_px
    let s2 := if shares_to_add ≠ 0 then
        log_activity s1 (LogEntry.sharesTrade ticker shares_to_add purchase_price)
      else s1
    (s2, SubmitOutcome.updated)

/-- The row the options form edits (lines 621–630): `none` for `(New)`. -/
def optRowOf (store : Store) (opt_id : Option Nat) : Option OptionPosition :=
  match opt_id with
  | some oid => lookupKey store.options oid
  | none => none

def oldContractsOf (store : Store) (opt_id : Option Nat) : ℚ :=
  match optRowOf store opt_id with
  | some q => q.contracts_held
  | none => 0

def oldOptionAvgOf (store : Store) (opt_id : Option Nat) : ℚ :=
  match optRowOf store opt_id with
  | some q => q.avg_cost
  | none => 0

/-- The `Submit (Options)` handler (lines 640–682).  For an existing row the
contract identifiers come from the stored row, for `(New)` from the form
inputs (`symbol_new`, …).  `chain?` is the chain snapshot the inner
`fetch_option_price` call reads; a fetch failure propagates as an exception
before any write, leaving the store unchanged. -/
def submit_options (store : Store) (opt_id : Option Nat)
    (symbol_new call_put_new expiration_new : String) (strike_new : ℚ)
    (contracts_to_add purchase_price : ℚ) (chain? : Option OptionsChain) :
    Store × SubmitOutcome :=
  let row? := optRowOf store opt_id
  let symbol := match row? with | some q => q.symbol | none => symbol_new
  let call_put := match row? with | some q => q.call_put | none => call_put_new
  let expiration := match row? with | some q => q.expiration | none => expiration_new
  let strike := match row? with | some q => q.strike | none => strike_new
  let old_contracts := oldContractsOf store opt_id
  let old_avg := oldOptionAvgOf store opt_id
  let total_contracts := old_contracts + contracts_to_add
  if total_contracts < 0 then (store, SubmitOutcome.rejected)
  else if total_contracts = 0 then
    match opt_id with
    | some oid =>
      let s1 := delete_option store oid
      let s2 := if contracts_to_add ≠ 0 then
          log_activity s1 (LogEntry.optionsTrade symbol call_put expiration strike
            contracts_to_add purchase_price)
        else s1
      (s2, SubmitOutcome.closed)
    | none => (store, SubmitOutcome.noop)
  else
    match fetch_option_price chain? expiration strike call_put with
    | Except.error e => (store, SubmitOutcome.fetchFailed e)
    | Except.ok current_opt_px =>
      let new_avg := if old_contracts + contracts_to_add ≠ 0 then
          weighted_average_cost old_contracts old_avg contracts_to_add purchase_price
        else 0
      let s1 := upsert_option store opt_id symbol call_put expiration strike
        total_contracts new_avg current_opt_px
      let s2 := if contracts_to_add ≠ 0 then
          log_activity s1 (LogEntry.optionsTrade symbol call_put expiration strike
            contracts_to_add purchase_price)
        else s1
      (s2, SubmitOutcome.updated)

/-! ## Once-per-session refresh -/

/-- One iteration of the `refresh_shares_prices` loop (lines 179–192):
re-fetch the price (`price_of` is the `fetch_share_price` oracle, total
because that fetch never raises), recompute P/L, upsert. -/
def refresh_shares_step (price_of : String → ℚ) (s : Store)
    (row : String × SharePosition) : Store :=
  upsert_share s row.1 row.2.shares_held row.2.avg_cost (price_of row.1)

/-- Embeds `refresh_shares_prices` (lines 175–192): iterate over the loaded
snapshot of the shares table, upserting each row back. -/
def refresh_shares_prices (store : Store) (price_of : String → ℚ) : Store :=
  store.shares.foldl (refresh_shares_step price_of) store

/-- The `refresh_options_prices` loop (lines 198–221) over the loaded row
snapshot.  An exception from `fetch_option_price` aborts the loop at that
row: rows already written stay written, the rest are untouched, and the
error is reported to the caller (second component). -/
def refresh_options_go (chain_of : String → Option OptionsChain) :
    List (Nat × OptionPosition) → Store → Store × Option FetchError
  | [], store => (store, none)
  | (oid, row) :: rest, store =>
    match fetch_option_price (chain_of row.symbol) row.expiration row.strike row.call_put with
    | Except.error e => (store, some e)
    | Except.ok current_px =>
      let unreal_pl := (current_px - row.avg_cost) * row.contracts_held * 100
      let s1 : Store :=
        { store with
            options := store.options.map (fun r =>
              if r.1 = oid then
                (oid, { row with current_price := current_px, unrealized_pl := unreal_pl })
              else r) }
      refresh_options_go chain_of rest s1

/-- Embeds `refresh_options_prices` (lines 194–221). -/
def refresh_options_prices (store : Store) (chain_of : String → Option OptionsChain) :
    Store × Option FetchError :=
  refresh_options_go chain_of store.options store

/-- Embeds `record_daily_performance` (lines 227–253): compute the portfolio
totals and upsert the `performance` row for today. -/
def record_daily_performance (store : Store) (today : String) : Store :=
  let original_cap_def := match store.settings with | some oc => oc | none => 0
  let totals := portfolio_totals store.shares store.options original_cap_def
  upsert_performance store today totals.total_value

/-- Embeds `refresh_all_once` (lines 255–264): guarded by the session flag; an
option-fetch exception skips `record_daily_performance` and leaves the
`did_refresh` flag unset.  Returns the store, the flag, and the escaped
error if any. -/
def refresh_all_once (store : Store) (did_refresh : Bool) (price_of : String → ℚ)
    (chain_of : String → Option OptionsChain) (today : String) :
    Store × Bool × Option FetchError :=
  if did_refresh then (store, true, none)
  else
    let s1 := refresh_shares_prices store price_of
    match refresh_options_prices s1 chain_of with
    | (s2, some e) => (s2, false, some e)
    | (s2, none) => (record_daily_performance s2 today, true, none)

/-! ## Association-list lemmas -/

theorem lookupKey_eraseKey_self {κ α : Type} [DecidableEq κ] (l : List (κ × α)) (k : κ) :
    lookupKey (eraseKey l k) k = none := by
  induction l with
  | nil => rfl
  | cons r rest ih =>
    by_cases h : r.1 = k
    · simp [eraseKey, h, ih]
    · simp [eraseKey, lookupKey, h, ih]

theorem mem_eraseKey {κ α : Type} [DecidableEq κ] {l : List (κ × α)} {k : κ}
    {r : κ × α} (h : r ∈ eraseKey l k) : r ∈ l := by
  induction l with
  | nil => simp [eraseKey] at h
  | cons r0 rest ih =>
    by_cases h0 : r0.1 = k
    · simp only [eraseKey, if_pos h0] at h
      exact List.mem_cons_of_mem _ (ih h)
    · simp only [eraseKey, if_neg h0, List.mem_cons] at h
      rcases h with h | h
      · exact h ▸ List.mem_cons_self _ _
      · exact List.mem_cons_of_mem _ (ih h)

theorem lookupKey_upsertAssoc_self {κ α : Type} [DecidableEq κ] (l : List (κ × α))
    (k : κ) (v : α) : lookupKey (upsertAssoc l k v) k = some v := by
  induction l with
  | nil => simp [upsertAssoc, lookupKey]
  | cons r rest ih =>
    by_cases h : r.1 = k
    · simp [upsertAssoc, lookupKey, h]
    · simp [upsertAssoc, lookupKey, h, ih]

theorem lookupKey_upsertAssoc_ne {κ α : Type} [DecidableEq κ] (l : List (κ × α))
    {k k' : κ} (v : α) (h : k' ≠ k) :
    lookupKey (upsertAssoc l k' v) k = lookupKey l k := by
  induction l with
  | nil => simp [upsertAssoc, lookupKey, h]
  | cons r rest ih =>
    by_cases h0 : r.1 = k'
    · simp [upsertAssoc, lookupKey, h0, h]
    · simp only [upsertAssoc, if_neg h0, lookupKey, ih]

theorem mem_upsertAssoc {κ α : Type} [DecidableEq κ] {l : List (κ × α)} {k : κ}
    {v : α} {r : κ × α} (h : r ∈ upsertAssoc l k v) : r ∈ l ∨ r = (k, v) := by
  induction l with
  | nil =>
    right
    simpa [upsertAssoc] using h
  | cons r0 rest ih =>
    by_cases h0 : r0.1 = k
    · simp only [upsertAssoc, if_pos h0, List.mem_cons] at h
      rcases h with h | h
      · exact Or.inr h
      · exact Or.inl (List.mem_cons_of_mem _ h)
    · simp only [upsertAssoc, if_neg h0, List.mem_cons] at h
      rcases h with h | h
      · exact Or.inl (h ▸ List.mem_cons_self _ _)
      · rcases ih h with h' | h'
        · exact Or.inl (List.mem_cons_of_mem _ h')
        · exact Or.inr h'

theorem lookupKey_mem {κ α : Type} [DecidableEq κ] {l : List (κ × α)} {k : κ}
    {v : α} (h : lookupKey l k = some v) : (k, v) ∈ l := by
  induction l with
  | nil => simp [lookupKey] at h
  | cons r rest ih =>
    by_cases h0 : r.1 = k
    · simp only [lookupKey, if_pos h0, Option.some.injEq] at h
      obtain ⟨k1, v1⟩ := r
      simp only at h0 h
      subst h0
      subst h
      exact List.mem_cons_self _ _
    · simp only [lookupKey, if_neg h0] at h
      exact List.mem_cons_of_mem _ (ih h)

/-! ## C1: weighted-average-cost bounds -/

/-- C1.  `weighted_average_cost` returns
`(old_qty*old_avg + delta_qty*delta_price) / (old_qty + delta_qty)`;
for non-negative `old_qty` and `delta_qty` with a positive total, the
result lies between `min old_avg delta_price` and `max old_avg delta_price`,
and when `old_qty = 0` it equals `delta_price`. -/
theorem weighted_average_cost_bounds (old_qty old_avg delta_qty delta_price : ℚ)
    (h1 : 0 ≤ old_qty) (h2 : 0 ≤ delta_qty) (h3 : 0 < old_qty + delta_qty) :
    weighted_average_cost old_qty old_avg delta_qty delta_price =
      (old_qty * old_avg + delta_qty * delta_price) / (old_qty + delta_qty) ∧
    min old_avg delta_price ≤ weighted_average_cost old_qty old_avg delta_qty delta_price ∧
    weighted_average_cost old_qty old_avg delta_qty delta_price ≤ max old_avg delta_price ∧
    (old_qty = 0 → weighted_average_cost old_qty old_avg delta_qty delta_price = delta_price) := by
  refine ⟨rfl, ?_, ?_, ?_⟩
  · rw [weighted_average_cost, le_div_iff₀ h3]
    have ha := mul_le_mul_of_nonneg_left (min_le_left old_avg delta_price) h1
    have hb := mul_le_mul_of_nonneg_left (min_le_right old_avg delta_price) h2
    nlinarith
  · rw [weighted_average_cost, div_le_iff₀ h3]
    have ha := mul_le_mul_of_nonneg_left (le_max_left old_avg delta_price) h1
    have hb := mul_le_mul_of_nonneg_left (le_max_right old_avg delta_price) h2
    nlinarith
  · intro h0
    subst h0
    have hd : delta_qty ≠ 0 := by intro h; rw [h] at h3; norm_num at h3
    rw [weighted_average_cost]
    field_simp

/-- Witness for C1 at `old_qty = 2, old_avg = 10, delta_qty = 2,
delta_price = 20`. -/
theorem weighted_average_cost_bounds_witness :
    weighted_average_cost 2 10 2 20 = (2 * 10 + 2 * 20) / (2 + 2) ∧
    min (10 : ℚ) 20 ≤ weighted_average_cost 2 10 2 20 ∧
    weighted_average_cost 2 10 2 20 ≤ max (10 : ℚ) 20 ∧
    ((2 : ℚ) = 0 → weighted_average_cost 2 10 2 20 = 20) :=
  weighted_average_cost_bounds 2 10 2 20 (by norm_num) (by norm_num) (by norm_num)

/-! ## C2 / C10: option mid-price lookup -/

/-- The snapshot
`{"options":{"2025-06-20":{"c":{"150.00":{"b":1.0,"a":1.2}}}}}` of the
spec's testable property. -/
def exampleChain : OptionsChain :=
  [("2025-06-20", { c := [("150.00", { b := some 1, a := some (6 / 5) })], p := [] })]

theorem upperStr_CALL : upperStr "CALL" = "CALL" := rfl

theorem strikeKey_150 : strikeKey 150 = "150.00" := by
  have h : centsOf 150 = 15000 := by norm_num [centsOf, ratFloor]
  simp only [strikeKey, h]
  rfl

theorem strikeKey_151 : strikeKey 151 = "151.00" := by
  have h : centsOf 151 = 15100 := by norm_num [centsOf, ratFloor]
  simp only [strikeKey, h]
  rfl

/-- A lookup that returns a row forces the side map to be non-empty, so the
`if not cp_dict` guard of `fetch_option_price` is passed. -/
theorem lookupKey_ne_nil {κ α : Type} [DecidableEq κ] {l : List (κ × α)} {k : κ}
    {v : α} (h : lookupKey l k = some v) : l.isEmpty = false := by
  cases l with
  | nil => simp [lookupKey] at h
  | cons r rest => rfl

/-- C2.  `fetch_option_price` fails with `notFound` when the chain, the
expiration, the call/put side, or the strike key is absent, fails with
`invalidQuote` when the (defaulted) ask is ≤ 0, and otherwise returns the
mid-price `(bid + ask) / 2`; on the example snapshot, strike 150 CALL gives
`1.1 = 11/10` and strike 151 fails with `notFound`. -/
theorem fetch_option_price_cases (chain : OptionsChain) (entry : ExpirationEntry)
    (expiration call_put : String) (strike : ℚ) :
    fetch_option_price none expiration strike call_put
        = Except.error FetchError.notFound ∧
    (lookupKey chain expiration = none →
      fetch_option_price (some chain) expiration strike call_put
        = Except.error FetchError.notFound) ∧
    (lookupKey chain expiration = some entry →
      (if upperStr call_put = "CALL" then entry.c else entry.p) = [] →
      fetch_option_price (some chain) expiration strike call_put
        = Except.error FetchError.notFound) ∧
    (lookupKey chain expiration = some entry →
      lookupKey (if upperStr call_put = "CALL" then entry.c else entry.p)
          (strikeKey strike) = none →
      fetch_option_price (some chain) expiration strike call_put
        = Except.error FetchError.notFound) ∧
    (∀ od : OptionQuote, lookupKey chain expiration = some entry →
      lookupKey (if upperStr call_put = "CALL" then entry.c else entry.p)
          (strikeKey strike) = some od →
      od.a.getD 0 ≤ 0 →
      fetch_option_price (some chain) expiration strike call_put
        = Except.error FetchError.invalidQuote) ∧
    (∀ od : OptionQuote, lookupKey chain expiration = some entry →
      lookupKey (if upperStr call_put = "CALL" then entry.c else entry.p)
          (strikeKey strike) = some od →
      0 < od.a.getD 0 →
      fetch_option_price (some chain) expiration strike call_put
        = Except.ok ((od.b.getD 0 + od.a.getD 0) / 2)) ∧
    fetch_option_price (some exampleChain) "2025-06-20" 150 "CALL"
        = Except.ok (11 / 10) ∧
    fetch_option_price (some exampleChain) "2025-06-20" 151 "CALL"
        = Except.error FetchError.notFound := by
  refine ⟨rfl, ?_, ?_, ?_, ?_, ?_, ?_, ?_⟩
  · intro h
    simp [fetch_option_price, h]
  · intro h hside
    simp [fetch_option_price, h, hside]
  · intro h hstrike
    rcases hempty : (if upperStr call_put = "CALL" then entry.c else entry.p).isEmpty with _ | _
    · simp [fetch_option_price, h, hempty, hstrike]
    · simp [fetch_option_price, h, List.isEmpty_iff.mp hempty]
  · intro od h hstrike hask
    simp [fetch_option_price, h, lookupKey_ne_nil hstrike, hstrike, hask]
  · intro od h hstrike hask
    simp [fetch_option_price, h, lookupKey_ne_nil hstrike, hstrike, not_le.mpr hask,
      le_of_lt hask]
  · simp [fetch_option_price, exampleChain, lookupKey, strikeKey_150, upperStr_CALL]
    norm_num
  · simp [fetch_option_price, exampleChain, lookupKey, strikeKey_151, upperStr_CALL]

/-- Witness for C2: the missing-expiration and the successful-mid-price
cases instantiated on the example snapshot. -/
theorem fetch_option_price_cases_witness :
    fetch_option_price (some exampleChain) "2024-01-01" 150 "CALL"
        = Except.error FetchError.notFound ∧
    fetch_option_price (some exampleChain) "2025-06-20" 150 "CALL"
        = Except.ok (((1 : ℚ) + 6 / 5) / 2) :=
  ⟨(fetch_option_price_cases exampleChain { c := [], p := [] } "2024-01-01" "CALL" 150).2.1
      (by simp [exampleChain, lookupKey]),
   by
    have h := (fetch_option_price_cases exampleChain
        { c := [("150.00", { b := some 1, a := some (6 / 5) })], p := [] }
        "2025-06-20" "CALL" 150).2.2.2.2.2.1
      { b := some 1, a := some (6 / 5) }
      (by simp [exampleChain, lookupKey])
      (by simp [lookupKey, strikeKey_150, upperStr_CALL])
      (by norm_num)
    simpa using h⟩

/-- C10.  A strike entry with no `"b"` key but a positive ask does not make
the lookup fail: the bid defaults to 0 and the mid-price is `ask / 2`. -/
theorem fetch_option_price_missing_bid (chain : OptionsChain) (entry : ExpirationEntry)
    (expiration call_put : String) (strike ask : ℚ)
    (h1 : lookupKey chain expiration = some entry)
    (h2 : lookupKey (if upperStr call_put = "CALL" then entry.c else entry.p)
        (strikeKey strike) = some { b := none, a := some ask })
    (h3 : 0 < ask) :
    fetch_option_price (some chain) expiration strike call_put = Except.ok (ask / 2) := by
  simp [fetch_option_price, h1, lookupKey_ne_nil h2, h2, not_le.mpr h3, le_of_lt h3]

/-- The example snapshot with the bid key absent at strike 150. -/
def exampleChainNoBid : OptionsChain :=
  [("2025-06-20", { c := [("150.00", { b := none, a := some 2 })], p := [] })]

/-- Witness for C10 on a snapshot whose strike-150 entry has only an ask. -/
theorem fetch_option_price_missing_bid_witness :
    fetch_option_price (some exampleChainNoBid) "2025-06-20" 150 "CALL"
        = Except.ok ((2 : ℚ) / 2) :=
  fetch_option_price_missing_bid exampleChainNoBid
    { c := [("150.00", { b := none, a := some 2 })], p := [] }
    "2025-06-20" "CALL" 150 2
    (by simp [exampleChainNoBid, lookupKey])
    (by simp [lookupKey, strikeKey_150, upperStr_CALL])
    (by norm_num)

/-! ## C6: equity quote fetch -/

/-- C6.  `fetch_share_price` returns the latest close when the history has
one, and the sentinel `0.0` when the call raised or the history is empty;
being a total function of the call's outcome, it never propagates an
exception (the Python body catches everything). -/
theorem fetch_share_price_spec (closes : List ℚ) (c : ℚ)
    (hc : closes.getLast? = some c) :
    fetch_share_price (Except.error ()) = 0 ∧
    fetch_share_price (Except.ok ([] : List ℚ)) = 0 ∧
    fetch_share_price (Except.ok closes) = c ∧
    (∀ h : Except Unit (List ℚ), fetch_share_price h = 0 ∨
      ∃ cs, h = Except.ok cs ∧ cs.getLast? = some (fetch_share_price h)) := by
  refine ⟨rfl, rfl, by simp [fetch_share_price, hc], ?_⟩
  intro h
  match h with
  | Except.error _ => exact Or.inl rfl
  | Except.ok cs =>
    rcases hl : cs.getLast? with _ | c'
    · exact Or.inl (by simp [fetch_share_price, hl])
    · exact Or.inr ⟨cs, rfl, by simp [fetch_share_price, hl]⟩

/-- Witness for C6 on the two-day history `[3, 4]`. -/
theorem fetch_share_price_spec_witness :
    fetch_share_price (Except.error ()) = 0 ∧
    fetch_share_price (Except.ok ([] : List ℚ)) = 0 ∧
    fetch_share_price (Except.ok [3, 4]) = 4 ∧
    (∀ h : Except Unit (List ℚ), fetch_share_price h = 0 ∨
      ∃ cs, h = Except.ok cs ∧ cs.getLast? = some (fetch_share_price h)) :=
  fetch_share_price_spec [3, 4] 4 (by simp)

/-! ## C3: negative-quantity updates are rejected before mutation -/

/-- C3.  A shares or options submission whose delta would drive the
resulting quantity below zero is rejected with the store untouched:
nothing is upserted, deleted, or logged. -/
theorem submit_negative_rejected (store : Store) (ticker : String)
    (shares_to_add purchase_price fetched_px : ℚ)
    (opt_id : Option Nat) (symbol_new call_put_new expiration_new : String)
    (strike_new contracts_to_add purchase_price_opt : ℚ) (chain? : Option OptionsChain)
    (hs : oldSharesOf store ticker + shares_to_add < 0)
    (ho : oldContractsOf store opt_id + contracts_to_add < 0) :
    submit_shares store ticker shares_to_add purchase_price fetched_px
      = (store, SubmitOutcome.rejected) ∧
    submit_options store opt_id symbol_new call_put_new expiration_new strike_new
      contracts_to_add purchase_price_opt chain? = (store, SubmitOutcome.rejected) := by
  constructor
  · simp [submit_shares, hs]
  · simp [submit_options, ho]

/-- A concrete store: 10 AAPL shares at avg cost 100 and 2 SPY 150 CALL
contracts at avg cost 1 (both rows P/L-consistent). -/
def exampleStore : Store :=
  { settings := some 10000,
    shares := [("AAPL",
      { shares_held := 10, avg_cost := 100, current_price := 110, unrealized_pl := 100 })],
    options := [(1,
      { symbol := "SPY", call_put := "CALL", expiration := "2025-06-20", strike := 150,
        contracts_held := 2, avg_cost := 1, current_price := 11 / 10, unrealized_pl := 20 })],
    performance := [], activity := [], next_id := 2 }

/-- Witness for C3: selling 11 of the 10 held shares and 3 of the 2 held
contracts is rejected without mutation. -/
theorem submit_negative_rejected_witness :
    submit_shares exampleStore "AAPL" (-11) 100 110 = (exampleStore, SubmitOutcome.rejected) ∧
    submit_options exampleStore (some 1) "SPY" "CALL" "2025-06-20" 150 (-3) 1 none
      = (exampleStore, SubmitOutcome.rejected) :=
  submit_negative_rejected exampleStore "AAPL" (-11) 100 110 (some 1) "SPY" "CALL"
    "2025-06-20" 150 (-3) 1 none
    (by norm_num [oldSharesOf, lookupKey, exampleStore])
    (by norm_num [oldContractsOf, optRowOf, lookupKey, exampleStore])

/-! ## C4: zero totals delete the row; stored quantities stay positive -/

@[simp] theorem log_activity_shares (s : Store) (e : LogEntry) :
    (log_activity s e).shares = s.shares := rfl

@[simp] theorem log_activity_options (s : Store) (e : LogEntry) :
    (log_activity s e).options = s.options := rfl

@[simp] theorem ite_log_shares (c : Prop) [Decidable c] (s : Store) (e : LogEntry) :
    (if c then log_activity s e else s).shares = s.shares := by
  split <;> rfl

@[simp] theorem ite_log_options (c : Prop) [Decidable c] (s : Store) (e : LogEntry) :
    (if c then log_activity s e else s).options = s.options := by
  split <;> rfl

@[simp] theorem ite_log_shares' (c : Prop) [Decidable c] (s : Store) (e : LogEntry) :
    (if c then s else log_activity s e).shares = s.shares := by
  split <;> rfl

@[simp] theorem ite_log_options' (c : Prop) [Decidable c] (s : Store) (e : LogEntry) :
    (if c then s else log_activity s e).options = s.options := by
  split <;> rfl

/-- Membership after the `update().eq(id, k)` row map. -/
theorem mem_ite_update {κ α : Type} [DecidableEq κ] {l : List (κ × α)} {k : κ} {v : α}
    {r : κ × α} (h : r ∈ l.map (fun r0 => if r0.1 = k then (k, v) else r0)) :
    r ∈ l ∨ r = (k, v) := by
  rcases List.mem_map.mp h with ⟨a, ha, rfl⟩
  by_cases h0 : a.1 = k
  · exact Or.inr (by rw [if_pos h0])
  · exact Or.inl (by rw [if_neg h0]; exact ha)

/-- Any share row present after a shares submission either was already
stored or is the freshly written row: its quantity is the (non-negative,
non-zero) new total and its P/L agrees with its own fields. -/
theorem mem_submit_shares_shares {store : Store} {ticker : String} {d pp px : ℚ}
    {r : String × SharePosition}
    (hr : r ∈ ((submit_shares store ticker d pp px).1).shares) :
    r ∈ store.shares ∨
      (¬(oldSharesOf store ticker + d < 0) ∧ oldSharesOf store ticker + d ≠ 0 ∧
       r.2.shares_held = oldSharesOf store ticker + d ∧
       r.2.unrealized_pl = (r.2.current_price - r.2.avg_cost) * r.2.shares_held) := by
  simp only [submit_shares] at hr
  split at hr
  · exact Or.inl hr
  · split at hr
    · split at hr
      · exact Or.inl (mem_eraseKey hr)
      · exact Or.inl (mem_eraseKey hr)
    · rename_i hc1 hc2
      split at hr
      all_goals
        rcases mem_upsertAssoc hr with h | h
        · exact Or.inl h
        · refine Or.inr ⟨hc1, hc2, ?_, ?_⟩ <;> rw [h]

/-- Any option row present after an options submission either was already
stored or is the freshly written row. -/
theorem mem_submit_options_options {store : Store} {opt_id : Option Nat}
    {sn cn en : String} {kn dq ppo : ℚ} {chain? : Option OptionsChain}
    {r : Nat × OptionPosition}
    (hr : r ∈ ((submit_options store opt_id sn cn en kn dq ppo chain?).1).options) :
    r ∈ store.options ∨
      (¬(oldContractsOf store opt_id + dq < 0) ∧ oldContractsOf store opt_id + dq ≠ 0 ∧
       r.2.contracts_held = oldContractsOf store opt_id + dq ∧
       r.2.unrealized_pl = (r.2.current_price - r.2.avg_cost) * r.2.contracts_held * 100) := by
  simp only [submit_options] at hr
  split at hr
  · exact Or.inl hr
  · split at hr
    · split at hr
      · split at hr
        · exact Or.inl (mem_eraseKey hr)
        · exact Or.inl (mem_eraseKey hr)
      · exact Or.inl hr
    · rename_i hc1 hc2
      split at hr
      · exact Or.inl hr
      · split at hr
        all_goals
          simp only [upsert_option] at hr
          split at hr
          · rcases List.mem_append.mp hr with h | h
            · exact Or.inl h
            · rcases List.mem_singleton.mp h with rfl
              refine Or.inr ⟨hc1, hc2, rfl, by ring⟩
          · rcases mem_ite_update hr with h | h
            · exact Or.inl h
            · refine Or.inr ⟨hc1, hc2, ?_, ?_⟩
              · rw [h]
              · rw [h]
                ring

/-- The refresh loop writes each row back with its own (positive)
`shares_held`, so positivity of all stored share quantities survives it. -/
theorem refresh_shares_foldl_pos (price_of : String → ℚ) :
    ∀ (rows : List (String × SharePosition)) (s : Store),
      (∀ r ∈ rows, 0 < r.2.shares_held) → (∀ r ∈ s.shares, 0 < r.2.shares_held) →
      ∀ r ∈ (rows.foldl (refresh_shares_step price_of) s).shares, 0 < r.2.shares_held := by
  intro rows
  induction rows with
  | nil => exact fun s _ hs r hr => hs r hr
  | cons row rest ih =>
    intro s hrows hs r hr
    rw [List.foldl_cons] at hr
    refine ih _ (fun r' hr' => hrows r' (List.mem_cons_of_mem _ hr')) ?_ r hr
    intro r' hr'
    simp only [refresh_shares_step, upsert_share] at hr'
    rcases mem_upsertAssoc hr' with h | h
    · exact hs r' h
    · rw [h]
      exact hrows row (List.mem_cons_self _ _)

/-- C4.  A delta that brings the total exactly to zero deletes the row
(shares and options), and every mutation path keeps stored quantities
strictly positive: no stored position ever has quantity 0. -/
theorem close_position_deleted (store : Store) (ticker : String) (p : SharePosition)
    (pp px d pp2 px2 : ℚ) (oid : Nat) (q : OptionPosition) (opt_id : Option Nat)
    (sn cn en : String) (kn dq ppo ppo2 : ℚ) (chain? chain2? : Option OptionsChain)
    (price_of : String → ℚ)
    (hp : lookupKey store.shares ticker = some p)
    (hq : lookupKey store.options oid = some q)
    (hpos : ∀ r ∈ store.shares, 0 < r.2.shares_held)
    (hposo : ∀ r ∈ store.options, 0 < r.2.contracts_held) :
    lookupKey ((submit_shares store ticker (-p.shares_held) pp px).1).shares ticker
      = none ∧
    lookupKey ((submit_options store (some oid) sn cn en kn (-q.contracts_held) ppo
        chain?).1).options oid = none ∧
    (∀ r ∈ ((submit_shares store ticker d pp2 px2).1).shares, 0 < r.2.shares_held) ∧
    (∀ r ∈ ((submit_options store opt_id sn cn en kn dq ppo2 chain2?).1).options,
      0 < r.2.contracts_held) ∧
    (∀ r ∈ (refresh_shares_prices store price_of).shares, 0 < r.2.shares_held) := by
  refine ⟨?_, ?_, ?_, ?_, ?_⟩
  · have h1 : oldSharesOf store ticker = p.shares_held := by simp [oldSharesOf, hp]
    simp [submit_shares, h1, delete_share, lookupKey_eraseKey_self]
  · have h2 : optRowOf store (some oid) = some q := by simp [optRowOf, hq]
    simp [submit_options, oldContractsOf, h2, delete_option, lookupKey_eraseKey_self]
  · intro r hr
    rcases mem_submit_shares_shares hr with h | ⟨hc1, hc2, hq', _⟩
    · exact hpos r h
    · rw [hq']
      exact lt_of_le_of_ne (not_lt.mp hc1) (Ne.symm hc2)
  · intro r hr
    rcases mem_submit_options_options hr with h | ⟨hc1, hc2, hq', _⟩
    · exact hposo r h
    · rw [hq']
      exact lt_of_le_of_ne (not_lt.mp hc1) (Ne.symm hc2)
  · exact refresh_shares_foldl_pos price_of store.shares store hpos hpos

/-- Witness for C4: closing the 10-share AAPL row and the 2-contract SPY
row of the example store removes both rows. -/
theorem close_position_deleted_witness :
    lookupKey ((submit_shares exampleStore "AAPL" (-(10 : ℚ)) 0 0).1).shares "AAPL"
      = none ∧
    lookupKey ((submit_options exampleStore (some 1) "X" "CALL" "2030-01-01" 5 (-(2 : ℚ)) 0
        none).1).options 1 = none ∧
    (∀ r ∈ ((submit_shares exampleStore "AAPL" 5 0 0).1).shares, 0 < r.2.shares_held) ∧
    (∀ r ∈ ((submit_options exampleStore (some 1) "X" "CALL" "2030-01-01" 5 1 0
        none).1).options, 0 < r.2.contracts_held) ∧
    (∀ r ∈ (refresh_shares_prices exampleStore (fun _ => 120)).shares,
      0 < r.2.shares_held) :=
  close_position_deleted exampleStore "AAPL"
    { shares_held := 10, avg_cost := 100, current_price := 110, unrealized_pl := 100 }
    0 0 5 0 0 1
    { symbol := "SPY", call_put := "CALL", expiration := "2025-06-20", strike := 150,
      contracts_held := 2, avg_cost := 1, current_price := 11 / 10, unrealized_pl := 20 }
    (some 1) "X" "CALL" "2030-01-01" 5 1 0 0 none none (fun _ => 120)
    (by simp [exampleStore, lookupKey])
    (by simp [exampleStore, lookupKey])
    (by
      intro r hr
      simp [exampleStore] at hr
      rw [hr]
      norm_num)
    (by
      intro r hr
      simp [exampleStore] at hr
      rw [hr]
      norm_num)

/-! ## C7: linearity of portfolio totals in current prices -/

/-- Doubling the `current_price` of one equity row. -/
def doubleSharePrice (r : String × SharePosition) : String × SharePosition :=
  (r.1, { r.2 with current_price := 2 * r.2.current_price })

/-- Doubling the `current_price` of one option row. -/
def doubleOptionPrice (r : Nat × OptionPosition) : Nat × OptionPosition :=
  (r.1, { r.2 with current_price := 2 * r.2.current_price })

theorem sum_map_double {α : Type} (l : List α) (f : α → ℚ) :
    (l.map fun x => 2 * f x).sum = 2 * (l.map f).sum := by
  induction l with
  | nil => simp
  | cons a t ih =>
    simp only [List.map_cons, List.sum_cons, ih]
    ring

/-- C7.  `portfolio_totals` is linear in the current prices: doubling every
position's `current_price` doubles `equity_value` and `option_value` and
leaves `buying_power` unchanged, for every pair of position lists and every
`original_capital`. -/
theorem portfolio_totals_linear (shares : List (String × SharePosition))
    (opts : List (Nat × OptionPosition)) (original_capital : ℚ) :
    (portfolio_totals (shares.map doubleSharePrice) (opts.map doubleOptionPrice)
        original_capital).equity_value
      = 2 * (portfolio_totals shares opts original_capital).equity_value ∧
    (portfolio_totals (shares.map doubleSharePrice) (opts.map doubleOptionPrice)
        original_capital).option_value
      = 2 * (portfolio_totals shares opts original_capital).option_value ∧
    (portfolio_totals (shares.map doubleSharePrice) (opts.map doubleOptionPrice)
        original_capital).buying_power
      = (portfolio_totals shares opts original_capital).buying_power := by
  have hs : ∀ r : String × SharePosition,
      (doubleSharePrice r).2.shares_held * (doubleSharePrice r).2.current_price
        = 2 * (r.2.shares_held * r.2.current_price) := by
    intro r
    simp only [doubleSharePrice]
    ring
  have ho : ∀ r : Nat × OptionPosition,
      (doubleOptionPrice r).2.contracts_held * 100 * (doubleOptionPrice r).2.current_price
        = 2 * (r.2.contracts_held * 100 * r.2.current_price) := by
    intro r
    simp only [doubleOptionPrice]
    ring
  have hs' : ∀ r : String × SharePosition,
      (doubleSharePrice r).2.shares_held * (doubleSharePrice r).2.avg_cost
        = r.2.shares_held * r.2.avg_cost := by
    intro r
    simp only [doubleSharePrice]
  have ho' : ∀ r : Nat × OptionPosition,
      (doubleOptionPrice r).2.contracts_held * 100 * (doubleOptionPrice r).2.avg_cost
        = r.2.contracts_held * 100 * r.2.avg_cost := by
    intro r
    simp only [doubleOptionPrice]
  refine ⟨?_, ?_, ?_⟩ <;>
    simp only [portfolio_totals, List.map_map, Function.comp_def, hs, ho, hs', ho',
      sum_map_double]

/-! ## C8: one performance row per calendar date -/

/-- Upserting twice under the same key leaves exactly one row with that
key, holding the later value, provided the list held at most one to begin
with (the store's unique-key constraint). -/
theorem filter_upsertAssoc_twice {κ α : Type} [DecidableEq κ] :
    ∀ (l : List (κ × α)) (d : κ) (v1 v2 : α),
      (l.filter (fun r => decide (r.1 = d))).length ≤ 1 →
      (upsertAssoc (upsertAssoc l d v1) d v2).filter (fun r => decide (r.1 = d))
        = [(d, v2)] := by
  intro l
  induction l with
  | nil =>
    intro d v1 v2 _
    simp [upsertAssoc]
  | cons r0 t ih =>
    intro d v1 v2 h
    by_cases h0 : r0.1 = d
    · simp only [upsertAssoc, if_pos h0, if_pos]
      have ht : (t.filter (fun r => decide (r.1 = d))).length = 0 := by
        rw [show ((r0 :: t).filter (fun r => decide (r.1 = d)))
              = r0 :: t.filter (fun r => decide (r.1 = d)) from by
            simp [List.filter_cons, h0]] at h
        simp only [List.length_cons] at h
        omega
      simp [List.length_eq_zero.mp ht]
    · simp only [upsertAssoc, if_neg h0]
      have h' : (t.filter (fun r => decide (r.1 = d))).length ≤ 1 := by
        simpa [List.filter_cons, h0] using h
      simp [List.filter_cons, h0, ih d v1 v2 h']

/-- C8.  Upserting two performance snapshots with the same date key leaves
a single row for that date, holding the later `total_value`. -/
theorem upsert_performance_same_date (store : Store) (d : String) (v1 v2 : ℚ)
    (h : ((store.performance.filter (fun r => decide (r.1 = d))).length ≤ 1)) :
    (upsert_performance (upsert_performance store d v1) d v2).performance.filter
      (fun r => decide (r.1 = d)) = [(d, v2)] := by
  simpa [upsert_performance] using
    filter_upsertAssoc_twice store.performance d v1 v2 h

/-- Witness for C8: two same-day snapshots on the example store collapse to
one row with the later value. -/
theorem upsert_performance_same_date_witness :
    (upsert_performance (upsert_performance exampleStore "2025-01-02" 11000)
        "2025-01-02" 12000).performance.filter
      (fun r => decide (r.1 = "2025-01-02")) = [("2025-01-02", 12000)] :=
  upsert_performance_same_date exampleStore "2025-01-02" 11000 12000
    (by simp [exampleStore])

/-! ## C9: stored `unrealized_pl` is always consistent with the row -/

/-- The derived-field invariant of an equity row. -/
def shareConsistent (p : SharePosition) : Prop :=
  p.unrealized_pl = (p.current_price - p.avg_cost) * p.shares_held

/-- The derived-field invariant of an option row (×100 contract size). -/
def optionConsistent (q : OptionPosition) : Prop :=
  q.unrealized_pl = (q.current_price - q.avg_cost) * q.contracts_held * 100

/-- Every stored position row satisfies its derived-field invariant. -/
def storeConsistent (s : Store) : Prop :=
  (∀ r ∈ s.shares, shareConsistent r.2) ∧ (∀ r ∈ s.options, optionConsistent r.2)

theorem upsert_share_consistent {s : Store} (hc : storeConsistent s) (t : String)
    (sh ac cp : ℚ) : storeConsistent (upsert_share s t sh ac cp) := by
  refine ⟨?_, hc.2⟩
  intro r hr
  simp only [upsert_share] at hr
  rcases mem_upsertAssoc hr with h | h
  · exact hc.1 r h
  · rw [h]
    rfl

theorem upsert_option_consistent {s : Store} (hc : storeConsistent s)
    (opt_id : Option Nat) (sym cps exs : String) (k ch ac px : ℚ) :
    storeConsistent (upsert_option s opt_id sym cps exs k ch ac px) := by
  constructor
  · intro r hr
    have hsh : (upsert_option s opt_id sym cps exs k ch ac px).shares = s.shares := by
      cases opt_id <;> rfl
    rw [hsh] at hr
    exact hc.1 r hr
  · intro r hr
    cases opt_id with
    | none =>
      simp only [upsert_option] at hr
      rcases List.mem_append.mp hr with h | h
      · exact hc.2 r h
      · rcases List.mem_singleton.mp h with rfl
        show (px - ac) * (ch * 100) = (px - ac) * ch * 100
        ring
    | some oid =>
      simp only [upsert_option] at hr
      rcases mem_ite_update hr with h | h
      · exact hc.2 r h
      · rw [h]
        show (px - ac) * (ch * 100) = (px - ac) * ch * 100
        ring

/-- A shares submission never touches the options table. -/
theorem submit_shares_options (store : Store) (ticker : String) (d pp px : ℚ) :
    ((submit_shares store ticker d pp px).1).options = store.options := by
  simp only [submit_shares]
  split
  · rfl
  · split
    · simp [delete_share]
    · simp [upsert_share]

/-- An options submission never touches the shares table. -/
theorem submit_options_shares (store : Store) (opt_id : Option Nat)
    (sn cn en : String) (kn dq ppo : ℚ) (chain? : Option OptionsChain) :
    ((submit_options store opt_id sn cn en kn dq ppo chain?).1).shares
      = store.shares := by
  simp only [submit_options]
  split
  · rfl
  · split
    · split
      · simp [delete_option]
      · rfl
    · split
      · rfl
      · simp only [ite_log_shares]
        cases opt_id <;> rfl

theorem refresh_shares_foldl_consistent (price_of : String → ℚ) :
    ∀ (rows : List (String × SharePosition)) (s : Store), storeConsistent s →
      storeConsistent (rows.foldl (refresh_shares_step price_of) s) := by
  intro rows
  induction rows with
  | nil => exact fun s hc => hc
  | cons row rest ih =>
    intro s hc
    rw [List.foldl_cons]
    exact ih _ (upsert_share_consistent hc _ _ _ _)

theorem refresh_options_go_consistent (chain_of : String → Option OptionsChain) :
    ∀ (rows : List (Nat × OptionPosition)) (s : Store), storeConsistent s →
      storeConsistent (refresh_options_go chain_of rows s).1 := by
  intro rows
  induction rows with
  | nil => exact fun s hc => hc
  | cons hd rest ih =>
    obtain ⟨oid, row⟩ := hd
    intro s hc
    simp only [refresh_options_go]
    split
    · exact hc
    · refine ih _ ⟨hc.1, ?_⟩
      intro r hr
      rcases mem_ite_update hr with h | h
      · exact hc.2 r h
      · rw [h]
        rfl

/-- C9.  Every write path of a position row — direct upsert, user
submission, session refresh — stores an `unrealized_pl` equal to
`(current_price − avg_cost) × qty` (×100 for options), so the
derived-field invariant holds of every stored position. -/
theorem stores_consistent (store : Store) (ticker : String) (sh ac cp : ℚ)
    (opt_id : Option Nat) (sym cps exs : String) (k ch ac2 px : ℚ)
    (d pp fpx : ℚ) (opt_id2 : Option Nat) (sn cn en : String) (kn dq ppo : ℚ)
    (chain? : Option OptionsChain) (price_of : String → ℚ)
    (chain_of : String → Option OptionsChain)
    (hc : storeConsistent store) :
    storeConsistent (upsert_share store ticker sh ac cp) ∧
    storeConsistent (upsert_option store opt_id sym cps exs k ch ac2 px) ∧
    storeConsistent ((submit_shares store ticker d pp fpx).1) ∧
    storeConsistent ((submit_options store opt_id2 sn cn en kn dq ppo chain?).1) ∧
    storeConsistent (refresh_shares_prices store price_of) ∧
    storeConsistent ((refresh_options_prices store chain_of).1) := by
  refine ⟨upsert_share_consistent hc _ _ _ _,
    upsert_option_consistent hc _ _ _ _ _ _ _ _, ⟨?_, ?_⟩, ⟨?_, ?_⟩,
    refresh_shares_foldl_consistent price_of store.shares store hc,
    refresh_options_go_consistent chain_of store.options store hc⟩
  · intro r hr
    rcases mem_submit_shares_shares hr with h | ⟨_, _, _, hpl⟩
    · exact hc.1 r h
    · exact hpl
  · intro r hr
    rw [submit_shares_options] at hr
    exact hc.2 r hr
  · intro r hr
    rw [submit_options_shares] at hr
    exact hc.1 r hr
  · intro r hr
    rcases mem_submit_options_options hr with h | ⟨_, _, _, hpl⟩
    · exact hc.2 r h
    · exact hpl

/-- Witness for C9 on the example store (whose two rows are consistent). -/
theorem stores_consistent_witness :
    storeConsistent (upsert_share exampleStore "MSFT" 1 2 3) ∧
    storeConsistent (upsert_option exampleStore none "QQQ" "PUT" "2026-01-16" 400 1 2 3) ∧
    storeConsistent ((submit_shares exampleStore "MSFT" 1 100 110).1) ∧
    storeConsistent ((submit_options exampleStore (some 1) "SPY" "CALL" "2025-06-20" 150
        1 1 none).1) ∧
    storeConsistent (refresh_shares_prices exampleStore (fun _ => 50)) ∧
    storeConsistent ((refresh_options_prices exampleStore (fun _ => none)).1) :=
  stores_consistent exampleStore "MSFT" 1 2 3 none "QQQ" "PUT" "2026-01-16" 400 1 2 3
    1 100 110 (some 1) "SPY" "CALL" "2025-06-20" 150 1 1 none (fun _ => 50)
    (fun _ => none)
    (by
      constructor <;> intro r hr <;> simp [exampleStore] at hr <;> rw [hr] <;>
        show _ = _ <;> norm_num [shareConsistent, optionConsistent])

/-! ## C5: partial-failure behaviour of the session refresh

The claim says a single position's price-fetch failure does not abort the
processing of the remaining positions.  That holds for shares (the fetch
returns the 0.0 sentinel instead of raising) but fails for options: an
exception from `fetch_option_price` escapes the loop, so rows after the
failing one are not re-fetched or written, and the daily snapshot is
skipped. -/

/-- An option row whose symbol the chain oracle can serve — with a quote
that differs from the stored `current_price`. -/
def stalePosition : OptionPosition :=
  { symbol := "QQQ", call_put := "CALL", expiration := "2025-06-20", strike := 150,
    contracts_held := 1, avg_cost := 1, current_price := 1 / 2, unrealized_pl := -50 }

/-- An option row whose symbol the chain oracle cannot serve. -/
def failingPosition : OptionPosition :=
  { symbol := "SPY", call_put := "CALL", expiration := "2025-06-20", strike := 150,
    contracts_held := 1, avg_cost := 1, current_price := 1, unrealized_pl := 0 }

/-- A store holding the failing row before the healthy one. -/
def twoOptionStore : Store :=
  { settings := some 1000, shares := [],
    options := [(1, failingPosition), (2, stalePosition)],
    performance := [], activity := [], next_id := 3 }

/-- A chain oracle that only knows QQQ. -/
def partialChainOf : String → Option OptionsChain :=
  fun s => if s = "QQQ" then some exampleChainNoBid else none

/-- C5 counterexample: the first option's fetch fails, and the run returns
the store unchanged — the second option is not re-fetched, recomputed, or
written back, although a fetch for it would succeed with price 1 ≠ its
stored 1/2. -/
theorem refresh_failure_aborts_rest :
    refresh_options_prices twoOptionStore partialChainOf
      = (twoOptionStore, some FetchError.notFound) ∧
    fetch_option_price (partialChainOf "QQQ") "2025-06-20" 150 "CALL" = Except.ok 1 ∧
    lookupKey ((refresh_options_prices twoOptionStore partialChainOf).1).options 2
      = some stalePosition ∧
    stalePosition.current_price ≠ 1 := by
  have h1 : refresh_options_prices twoOptionStore partialChainOf
      = (twoOptionStore, some FetchError.notFound) := by
    simp [refresh_options_prices, twoOptionStore, refresh_options_go, partialChainOf,
      failingPosition, fetch_option_price]
  refine ⟨h1, ?_, ?_, ?_⟩
  · simp [partialChainOf, exampleChainNoBid, fetch_option_price, lookupKey,
      strikeKey_150, upperStr_CALL]
  · rw [h1]
    simp [twoOptionStore, lookupKey]
  · simp [stalePosition]

/-- The shares-refresh loop never touches the options or performance
tables. -/
theorem refresh_shares_foldl_fixed (price_of : String → ℚ) :
    ∀ (rows : List (String × SharePosition)) (s : Store),
      (rows.foldl (refresh_shares_step price_of) s).options = s.options ∧
      (rows.foldl (refresh_shares_step price_of) s).performance = s.performance := by
  intro rows
  induction rows with
  | nil => exact fun s => ⟨rfl, rfl⟩
  | cons row rest ih =>
    intro s
    rw [List.foldl_cons]
    exact ih (refresh_shares_step price_of s row)

/-- Rows whose key the loop never writes keep their lookup result. -/
theorem refresh_shares_foldl_lookup_of_notmem (price_of : String → ℚ) :
    ∀ (rows : List (String × SharePosition)) (s : Store) (t : String),
      t ∉ rows.map Prod.fst →
      lookupKey ((rows.foldl (refresh_shares_step price_of) s)).shares t
        = lookupKey s.shares t := by
  intro rows
  induction rows with
  | nil => intro s t _; rfl
  | cons row rest ih =>
    intro s t ht
    rw [List.foldl_cons]
    have h1 : t ∉ rest.map Prod.fst := fun h => ht (List.mem_cons_of_mem _ h)
    have h2 : row.1 ≠ t := by
      intro h
      exact ht (by rw [← h]; exact List.mem_cons_self _ _)
    rw [ih _ t h1]
    exact lookupKey_upsertAssoc_ne s.shares _ h2

/-- On a key-unique shares table, the refresh loop leaves every row
re-fetched and rewritten: its stored price is the freshly fetched one and
its P/L is recomputed from it. -/
theorem refresh_shares_foldl_lookup (price_of : String → ℚ) :
    ∀ (rows : List (String × SharePosition)) (s : Store) (t : String)
      (p : SharePosition), (rows.map Prod.fst).Nodup → (t, p) ∈ rows →
      lookupKey ((rows.foldl (refresh_shares_step price_of) s)).shares t
        = some { shares_held := p.shares_held, avg_cost := p.avg_cost,
                 current_price := price_of t,
                 unrealized_pl := (price_of t - p.avg_cost) * p.shares_held } := by
  intro rows
  induction rows with
  | nil =>
    intro s t p _ hm
    simp at hm
  | cons row rest ih =>
    intro s t p hnd hm
    simp only [List.map_cons, List.nodup_cons] at hnd
    rw [List.foldl_cons]
    rcases List.mem_cons.mp hm with h | h
    · have hnotin : t ∉ rest.map Prod.fst := by
        rw [show t = row.1 from by rw [← h]]
        exact hnd.1
      rw [refresh_shares_foldl_lookup_of_notmem price_of rest _ t hnotin, ← h]
      exact lookupKey_upsertAssoc_self s.shares t _
    · exact ih _ t p hnd.2 h

/-- C5 (amended).  A share price-fetch failure cannot abort the refresh:
the share fetch returns the 0.0 sentinel instead of raising, so on a
key-unique table every share row is still re-fetched, recomputed and
written back.  An option price-fetch failure, by contrast, aborts the
option loop at the failing row — the remaining option rows are not
re-fetched or written, the daily snapshot is skipped, and the session flag
stays unset. -/
theorem refresh_partial_failure (store : Store) (price_of : String → ℚ)
    (chain_of : String → Option OptionsChain) (today : String) (t : String)
    (p : SharePosition) (oid : Nat) (q : OptionPosition)
    (rest : List (Nat × OptionPosition)) (e : FetchError)
    (hnd : (store.shares.map Prod.fst).Nodup)
    (hp : (t, p) ∈ store.shares)
    (hopts : store.options = (oid, q) :: rest)
    (hfail : fetch_option_price (chain_of q.symbol) q.expiration q.strike q.call_put
        = Except.error e) :
    lookupKey (refresh_shares_prices store price_of).shares t
      = some { shares_held := p.shares_held, avg_cost := p.avg_cost,
               current_price := price_of t,
               unrealized_pl := (price_of t - p.avg_cost) * p.shares_held } ∧
    refresh_options_prices store chain_of = (store, some e) ∧
    refresh_all_once store false price_of chain_of today
      = (refresh_shares_prices store price_of, false, some e) ∧
    (refresh_all_once store false price_of chain_of today).1.performance
      = store.performance := by
  have hs1 := refresh_shares_foldl_fixed price_of store.shares store
  have h2 : refresh_options_prices (refresh_shares_prices store price_of) chain_of
      = (refresh_shares_prices store price_of, some e) := by
    rw [refresh_options_prices, show (refresh_shares_prices store price_of).options
        = (oid, q) :: rest from hs1.1.trans hopts]
    simp [refresh_options_go, hfail]
  have h3 : refresh_all_once store false price_of chain_of today
      = (refresh_shares_prices store price_of, false, some e) := by
    simp [refresh_all_once, h2]
  refine ⟨refresh_shares_foldl_lookup price_of store.shares store t p hnd hp,
    ?_, h3, ?_⟩
  · rw [refresh_options_prices, hopts]
    simp [refresh_options_go, hfail]
  · rw [h3]
    exact hs1.2

/-- A store with one share row and one failing option row. -/
def mixedStore : Store :=
  { settings := some 1000,
    shares := [("AAPL",
      { shares_held := 10, avg_cost := 100, current_price := 110, unrealized_pl := 100 })],
    options := [(1, failingPosition)],
    performance := [], activity := [], next_id := 2 }

/-- Witness for the amended C5 on the mixed store whose single option
fetch fails. -/
theorem refresh_partial_failure_witness :
    lookupKey (refresh_shares_prices mixedStore (fun _ => 120)).shares "AAPL"
      = some { shares_held := 10, avg_cost := 100, current_price := 120,
               unrealized_pl := (120 - 100) * 10 } ∧
    refresh_options_prices mixedStore partialChainOf
      = (mixedStore, some FetchError.notFound) ∧
    refresh_all_once mixedStore false (fun _ => 120) partialChainOf "2025-01-02"
      = (refresh_shares_prices mixedStore (fun _ => 120), false,
         some FetchError.notFound) ∧
    (refresh_all_once mixedStore false (fun _ => 120) partialChainOf
        "2025-01-02").1.performance = mixedStore.performance :=
  refresh_partial_failure mixedStore (fun _ => 120) partialChainOf "2025-01-02"
    "AAPL"
    { shares_held := 10, avg_cost := 100, current_price := 110, unrealized_pl := 100 }
    1 failingPosition [] FetchError.notFound
    (by simp [mixedStore])
    (by simp [mixedStore])
    rfl
    (by simp [partialChainOf, failingPosition, fetch_option_price])

end EFIShares
